import Mathlib

/-
  Verification of the schematics virtual-filesystem core of angular/devkit.

  The definitions below are a shallow embedding of
  `packages/angular_devkit/schematics/src/tree/host-tree.ts` (HostTree and
  HostDirEntry).  The pieces of the repository that host-tree.ts depends on
  but that are outside that file (the CordHost overlay of
  `@angular-devkit/core`'s virtualFs, the MergeStrategy enum of interface.ts,
  and UpdateRecorderBase of recorder.ts) are modelled from the repository's
  specification document; every such definition carries a doc comment
  starting with "Modelled from the spec:".

  Paths are modelled as lists of (already normalized) segments, contents as
  strings.  Machine-level Buffer handling is identity in this model.
-/

/-- Absolute normalized path: the list of path segments ("/dir/b" is
["dir", "b"]; the root is []). -/
abbrev FsPath := List String

/-- Immutable file content (one logical file version). -/
abbrev Content := String

/-- Modelled from the spec: one structural mutation record of the Overlay
(CordHost record; the CordHost itself is outside host-tree.ts).  The four
kinds are Create, Overwrite, Rename and Delete, a closed sum. -/
inductive FsRecord where
  | create (path : FsPath) (content : Content)
  | overwrite (path : FsPath) (content : Content)
  | rename (src : FsPath) (dst : FsPath)
  | delete (path : FsPath)
  deriving DecidableEq, Repr

/-- Resolved logical view of a filesystem: a finite association list from
paths to file contents (files only; directories are implicit prefixes). -/
abbrev FsMap := List (FsPath × Content)

/-- Content of the file at a path in a resolved view, if any. -/
def lookupFs (m : FsMap) (p : FsPath) : Option Content :=
  (m.find? (fun e => decide (e.1 = p))).map (fun e => e.2)

/-- Replace or add the file at a path. -/
def insertFile (m : FsMap) (p : FsPath) (c : Content) : FsMap :=
  (m.filter (fun e => decide (e.1 ≠ p))) ++ [(p, c)]

/-- Remove the file at a path, if present. -/
def eraseFile (m : FsMap) (p : FsPath) : FsMap :=
  m.filter (fun e => decide (e.1 ≠ p))

/-- A file is at the path in the resolved view. -/
def isFile (m : FsMap) (p : FsPath) : Bool :=
  (lookupFs m p).isSome

/-- Modelled from the spec: a directory exists at a path if any file exists
strictly under it (the path is a proper prefix of some file's path). -/
def isDirectory (m : FsMap) (p : FsPath) : Bool :=
  m.any (fun e => p.isPrefixOf e.1 && decide (p.length < e.1.length))

/-- Modelled from the spec: logical existence and content of a path are
obtained by applying the records in order on top of the backend's view. -/
def applyRecord (m : FsMap) : FsRecord → FsMap
  | .create p c => insertFile m p c
  | .overwrite p c => insertFile m p c
  | .delete p => eraseFile m p
  | .rename a b =>
    match lookupFs m a with
    | some c => insertFile (eraseFile m a) b c
    | none => m

/-- Fold the whole record log over a backend view. -/
def applyRecords (backend : FsMap) (rs : List FsRecord) : FsMap :=
  rs.foldl applyRecord backend

/-- Modelled from the spec: the Overlay (CordHost): a read-only backend view
plus the append-only ordered record log. -/
structure CordHost where
  backend : FsMap
  records : List FsRecord
  deriving DecidableEq, Repr

/-- Current resolved view of an overlay. -/
def viewOf (h : CordHost) : FsMap :=
  applyRecords h.backend h.records

/-- Modelled from the spec: a path exists if it resolves to a file or to a
directory in the overlay's resolved view (backend or prior record). -/
def hostExists (h : CordHost) (p : FsPath) : Bool :=
  isFile (viewOf h) p || isDirectory (viewOf h) p

/-- Exceptions of the schematics core (exception.ts and core paths). -/
inductive Exc where
  | fileAlreadyExist (p : FsPath)
  | fileDoesNotExist (p : FsPath)
  | mergeConflict (p : FsPath)
  | pathIsDirectory (p : FsPath)
  | pathIsFile (p : FsPath)
  | contentHasMutated (p : FsPath)
  | invalidUpdateRecord
  deriving DecidableEq, Repr

/-- Result of an operation that can throw a schematics exception. -/
inductive Outcome (α : Type) where
  | ok (val : α)
  | thrown (e : Exc)
  deriving DecidableEq, Repr

/-- Modelled from the spec: CordHost.willCreate, a pure predicate over the
pending records used by merge conflict detection. -/
def willCreate (h : CordHost) (p : FsPath) : Bool :=
  h.records.any (fun r => match r with | .create q _ => decide (q = p) | _ => false)

/-- Modelled from the spec: CordHost.willOverwrite. -/
def willOverwrite (h : CordHost) (p : FsPath) : Bool :=
  h.records.any (fun r => match r with | .overwrite q _ => decide (q = p) | _ => false)

/-- Modelled from the spec: CordHost.willRename (pending rename of the given
source path). -/
def willRename (h : CordHost) (p : FsPath) : Bool :=
  h.records.any (fun r => match r with | .rename q _ => decide (q = p) | _ => false)

/-- Modelled from the spec: CordHost.willDelete. -/
def willDelete (h : CordHost) (p : FsPath) : Bool :=
  h.records.any (fun r => match r with | .delete q => decide (q = p) | _ => false)

/-- Modelled from the spec: CordHost.create appends a Create record after
checking that the path does not already exist. -/
def hostCreate (h : CordHost) (p : FsPath) (c : Content) : Outcome CordHost :=
  if hostExists h p then .thrown (.fileAlreadyExist p)
  else .ok ⟨h.backend, h.records ++ [.create p c]⟩

/-- Modelled from the spec: CordHost.overwrite appends an Overwrite record;
it fails if the path does not currently exist. -/
def hostOverwrite (h : CordHost) (p : FsPath) (c : Content) : Outcome CordHost :=
  if !(hostExists h p) then .thrown (.fileDoesNotExist p)
  else .ok ⟨h.backend, h.records ++ [.overwrite p c]⟩

/-- Modelled from the spec: CordHost.delete appends a Delete record; it fails
if the path does not currently exist. -/
def hostDelete (h : CordHost) (p : FsPath) : Outcome CordHost :=
  if !(hostExists h p) then .thrown (.fileDoesNotExist p)
  else .ok ⟨h.backend, h.records ++ [.delete p]⟩

/-- Modelled from the spec: CordHost.rename appends a Rename record; it fails
if the source is absent or the target already exists. -/
def hostRename (h : CordHost) (a b : FsPath) : Outcome CordHost :=
  if !(hostExists h a) then .thrown (.fileDoesNotExist a)
  else if hostExists h b then .thrown (.fileAlreadyExist b)
  else .ok ⟨h.backend, h.records ++ [.rename a b]⟩

/-- HostTree (host-tree.ts line 95): a unique id plus its exclusively owned
overlay.  The directory-entry cache is pure caching and is not modelled. -/
structure HostTree where
  id : Nat
  host : CordHost
  deriving DecidableEq, Repr

/-- Rebuild a tree around the outcome of one of its overlay operations. -/
def liftHost (t : HostTree) : Outcome CordHost → Outcome HostTree
  | .ok h => .ok ⟨t.id, h⟩
  | .thrown e => .thrown e

/-- HostTree.exists (host-tree.ts line 202): delegates to isFile of the
resolved overlay view. -/
def treeExists (t : HostTree) (p : FsPath) : Bool :=
  isFile (viewOf t.host) p

/-- HostTree.get (host-tree.ts lines 206-216): throws PathIsDirectory on a
directory path, returns null when the path does not exist, otherwise the
file's content (the LazyFileEntry's resolved content). -/
def treeGet (t : HostTree) (p : FsPath) : Outcome (Option Content) :=
  if isDirectory (viewOf t.host) p then .thrown (.pathIsDirectory p)
  else if !(hostExists t.host p) then .ok none
  else
    match lookupFs (viewOf t.host) p with
    | some c => .ok (some c)
    | none => .thrown (.fileDoesNotExist p)

/-- HostTree.read (host-tree.ts lines 197-201): the entry's content when get
finds one, null otherwise. -/
def treeRead (t : HostTree) (p : FsPath) : Outcome (Option Content) :=
  treeGet t p

/-- HostTree.create (host-tree.ts lines 274-281): throws FileAlreadyExist
when the path already exists in the overlay view, otherwise delegates to the
overlay's create. -/
def treeCreate (t : HostTree) (p : FsPath) (c : Content) : Outcome HostTree :=
  if hostExists t.host p then .thrown (.fileAlreadyExist p)
  else liftHost t (hostCreate t.host p c)

/-- HostTree.overwrite (host-tree.ts lines 242-249). -/
def treeOverwrite (t : HostTree) (p : FsPath) (c : Content) : Outcome HostTree :=
  if !(hostExists t.host p) then .thrown (.fileDoesNotExist p)
  else liftHost t (hostOverwrite t.host p c)

/-- HostTree.delete (host-tree.ts lines 282-284): delegates to the overlay. -/
def treeDelete (t : HostTree) (p : FsPath) : Outcome HostTree :=
  liftHost t (hostDelete t.host p)

/-- HostTree.rename (host-tree.ts lines 285-287): delegates to the overlay. -/
def treeRename (t : HostTree) (a b : FsPath) : Outcome HostTree :=
  liftHost t (hostRename t.host a b)

/-- Modelled from the spec: MergeStrategy.Default (interface.ts is not part
of host-tree.ts; bit-flag values follow the specification, whose Design
Notes state that the delete-conflict flag reuses the overwrite-conflict
flag's bit). -/
def mergeDefault : Nat := 0

/-- Modelled from the spec: MergeStrategy.Error. -/
def mergeErrorStrategy : Nat := 1

/-- Modelled from the spec: MergeStrategy.AllowOverwriteConflict bit flag. -/
def allowOverwriteConflict : Nat := 2

/-- Modelled from the spec: MergeStrategy.AllowCreationConflict bit flag. -/
def allowCreationConflict : Nat := 4

/-- Modelled from the spec: MergeStrategy.AllowDeleteConflict; per the
specification's Design Notes it reuses the same bit as
AllowOverwriteConflict. -/
def allowDeleteConflict : Nat := 2

/-- HostTree.merge (host-tree.ts lines 125-126): creation conflicts allowed
when the AllowCreationConflict bit is set. -/
def creationConflictAllowed (strategy : Nat) : Bool :=
  (strategy &&& allowCreationConflict) == allowCreationConflict

/-- HostTree.merge (host-tree.ts lines 127-128): overwrite conflicts allowed
when the AllowOverwriteConflict bit is set. -/
def overwriteConflictAllowed (strategy : Nat) : Bool :=
  (strategy &&& allowOverwriteConflict) == allowOverwriteConflict

/-- HostTree.merge (host-tree.ts lines 129-130): the source masks the
strategy with AllowOverwriteConflict and compares the result against
AllowDeleteConflict. -/
def deleteConflictAllowed (strategy : Nat) : Bool :=
  (strategy &&& allowOverwriteConflict) == allowDeleteConflict

/-- Exported action (action.ts shape as produced by the actions getter of
host-tree.ts lines 292-334): a record tagged with the id of the tree that
exported it.  The parent linkage field is constantly 0 and omitted. -/
structure ActionM where
  id : Nat
  op : FsRecord
  deriving DecidableEq, Repr

/-- HostTree.actions (host-tree.ts lines 292-334): every record mapped 1:1
into an action carrying this tree's id (clean only removes entries for
unknown record kinds, of which the closed model has none). -/
def actionsOf (t : HostTree) : List ActionM :=
  t.host.records.map (fun r => ⟨t.id, r⟩)

/-- HostTree.merge, body of the per-action forEach (host-tree.ts lines
132-188): skip actions carrying this tree's own id, otherwise replay the
action against this tree's overlay under the strategy's allowances. -/
def mergeAction (dest : HostTree) (a : ActionM) (strategy : Nat) : Outcome HostTree :=
  if a.id = dest.id then .ok dest
  else
    match a.op with
    | .create p c =>
      if willCreate dest.host p || willOverwrite dest.host p then
        if !(creationConflictAllowed strategy) then .thrown (.mergeConflict p)
        else liftHost dest (hostOverwrite dest.host p c)
      else liftHost dest (hostCreate dest.host p c)
    | .overwrite p c =>
      if willOverwrite dest.host p && !(overwriteConflictAllowed strategy) then
        .thrown (.mergeConflict p)
      else liftHost dest (hostOverwrite dest.host p c)
    | .rename p q =>
      if willRename dest.host p then .thrown (.mergeConflict p)
      else liftHost dest (hostRename dest.host p q)
    | .delete p =>
      if willDelete dest.host p && !(deleteConflictAllowed strategy) then
        .thrown (.mergeConflict p)
      else liftHost dest (hostDelete dest.host p)

/-- Sequential replay of a list of actions; the first unresolved conflict or
overlay error aborts the merge at that point (merges are not atomic). -/
def mergeActions (strategy : Nat) : HostTree → List ActionM → Outcome HostTree
  | t, [] => .ok t
  | t, a :: rest =>
    match mergeAction t a strategy with
    | .thrown e => .thrown e
    | .ok t2 => mergeActions strategy t2 rest

/-- HostTree.merge (host-tree.ts lines 119-190): merging with yourself is a
no-op (the object-identity test is modelled by id equality, ids being
unique per tree); otherwise the other tree's exported actions are replayed
in order. -/
def mergeTrees (dest other : HostTree) (strategy : Nat) : Outcome HostTree :=
  if other.id = dest.id then .ok dest
  else mergeActions strategy dest (actionsOf other)

/-- Modelled from the spec: SyncDelegateHost.list resolved against the
overlay view: the distinct child fragment names under a path, in first
occurrence order of the view's enumeration (deterministic for a fixed
state). -/
def childNames (m : FsMap) (d : FsPath) : List String :=
  (m.filterMap (fun e => if d.isPrefixOf e.1 then (e.1.drop d.length).head? else none)).foldl
    (fun acc n => if n ∈ acc then acc else acc ++ [n]) []

/-- HostDirEntry.subfiles (host-tree.ts lines 62-65): children of the path
that resolve to files. -/
def subfiles (m : FsMap) (d : FsPath) : List String :=
  (childNames m d).filter (fun n => isFile m (d ++ [n]))

/-- HostDirEntry.subdirs (host-tree.ts lines 58-61): children of the path
that resolve to directories. -/
def subdirs (m : FsMap) (d : FsPath) : List String :=
  (childNames m d).filter (fun n => isDirectory m (d ++ [n]))

/-- Full paths of the direct files of a directory, in listing order. -/
def subfilePaths (m : FsMap) (d : FsPath) : List FsPath :=
  (subfiles m d).map (fun n => d ++ [n])

/-- Concatenation of a path-list-producing function over a name list (the
shape of the subdirs forEach of HostDirEntry.visit). -/
def catAll (g : String → List FsPath) : List String → List FsPath
  | [] => []
  | n :: ns => g n ++ catAll g ns

/-- HostDirEntry.visit recursion order (host-tree.ts lines 74-82), as the
list of file paths in visitation order: all files of the current directory
first, then each subdirectory recursively.  The fuel argument bounds the
recursion depth; any fuel larger than the deepest path is exact. -/
def visitFrom (m : FsMap) : Nat → FsPath → List FsPath
  | 0, _ => []
  | fuel + 1, d => subfilePaths m d ++ catAll (fun n => visitFrom m fuel (d ++ [n])) (subdirs m d)

/-- Behaviour of one visitor invocation: continue, raise the distinguished
FileVisitorCancelToken, or raise an ordinary exception (numbered). -/
inductive VisitAct where
  | next
  | cancel
  | fail (e : Nat)
  deriving DecidableEq, Repr

/-- Signal escaping from the traversal recursion: the cancel token or an
ordinary exception. -/
inductive VisitSig where
  | cancelSig
  | errSig (e : Nat)
  deriving DecidableEq, Repr

/-- Run a visitor over a flat list of file paths, stopping at the first
raised signal; returns the visited paths (including the one that raised)
and the signal, if any. -/
def linRun (v : FsPath → VisitAct) : List FsPath → List FsPath × Option VisitSig
  | [] => ([], none)
  | p :: ps =>
    match v p with
    | .next =>
      let r := linRun v ps
      (p :: r.1, r.2)
    | .cancel => ([p], some .cancelSig)
    | .fail e => ([p], some (.errSig e))

/-- Sequence two traversal results: a signal in the first aborts the second
(exception propagation through the forEach loops). -/
def seqComp (a b : List FsPath × Option VisitSig) : List FsPath × Option VisitSig :=
  match a.2 with
  | some _ => a
  | none => (a.1 ++ b.1, b.2)

/-- Sequence a traversal-producing function over a name list with
exception short circuit. -/
def seqAll (g : String → List FsPath × Option VisitSig) : List String → List FsPath × Option VisitSig
  | [] => ([], none)
  | n :: ns => seqComp (g n) (seqAll g ns)

/-- The inner _recurse of HostDirEntry.visit (host-tree.ts lines 75-82):
invoke the visitor on every direct file, then recurse into every
subdirectory; an exception raised by the visitor aborts the recursion and
propagates. -/
def recVisit (m : FsMap) (v : FsPath → VisitAct) : Nat → FsPath → List FsPath × Option VisitSig
  | 0, _ => ([], none)
  | fuel + 1, d =>
    seqComp (linRun v (subfilePaths m d))
      (seqAll (fun n => recVisit m v fuel (d ++ [n])) (subdirs m d))

/-- Fuel sufficient for every path of the view (strictly more than the
longest path). -/
def fuelOf (m : FsMap) : Nat :=
  m.foldl (fun acc e => max acc e.1.length) 0 + 1

/-- HostDirEntry.visit at the root (host-tree.ts lines 84-91, reached from
HostTree.visit lines 237-239): run the recursion from the root and catch
the FileVisitorCancelToken there; any other exception propagates to the
caller.  Result: visited files plus the propagated exception, if any. -/
def hostVisit (m : FsMap) (v : FsPath → VisitAct) : List FsPath × Option Nat :=
  let r := recVisit m v (fuelOf m) []
  (r.1,
    match r.2 with
    | some .cancelSig => none
    | some (.errSig e) => some e
    | none => none)

/-- The complete visitation order of a view, from the root. -/
def visitOrderOf (m : FsMap) : List FsPath :=
  visitFrom m (fuelOf m) []

/-- Modelled from the spec: one positional patch operation of the
UpdateRecorder. -/
inductive Patch where
  | insertLeft (offset : Nat) (s : String)
  | insertRight (offset : Nat) (s : String)
  | remove (offset : Nat) (len : Nat)
  deriving DecidableEq, Repr

/-- Modelled from the spec: insertLeft text queued at an offset, in recorded
order. -/
def leftsAt (ps : List Patch) (i : Nat) : String :=
  ps.foldl
    (fun acc p => match p with | .insertLeft o s => if o = i then acc ++ s else acc | _ => acc) ""

/-- Modelled from the spec: insertRight text queued at an offset, in
recorded order. -/
def rightsAt (ps : List Patch) (i : Nat) : String :=
  ps.foldl
    (fun acc p => match p with | .insertRight o s => if o = i then acc ++ s else acc | _ => acc) ""

/-- Modelled from the spec: an offset falls inside some remove range (the
union of overlapping ranges is excised). -/
def removedAt (ps : List Patch) (i : Nat) : Bool :=
  ps.any (fun p => match p with | .remove o l => decide (o ≤ i) && decide (i < o + l) | _ => false)

/-- Modelled from the spec: UpdateRecorderBase.apply walks the content
offset by offset, emitting queued insertLeft text, then the original
character unless removed, then queued insertRight text; offsets at the end
of the content still flush their insertions. -/
def applyPatch (ps : List Patch) (c : Content) : Content :=
  (List.range (c.length + 1)).foldl
    (fun acc i =>
      acc ++ leftsAt ps i
        ++ (if removedAt ps i then "" else String.mk ((c.data.drop i).take 1))
        ++ rightsAt ps i)
    ""

/-- Modelled from the spec: UpdateRecorderBase (recorder.ts): the target
path and the ordered patch list. -/
structure UpdateRecorderBase where
  path : FsPath
  patches : List Patch
  deriving DecidableEq, Repr

/-- An update recorder handed to commitUpdate: either a genuine
UpdateRecorderBase or a foreign object failing the instanceof test. -/
inductive AnyRecorder where
  | base (u : UpdateRecorderBase)
  | foreign
  deriving DecidableEq, Repr

/-- HostTree.commitUpdate (host-tree.ts lines 258-271): a non
UpdateRecorderBase recorder throws InvalidUpdateRecord; otherwise the
current content at the recorder's path is re-read through get (whose
PathIsDirectory exception propagates), a missing entry throws
ContentHasMutated, and a present entry has the patch log applied to it and
the result written back through overwrite. -/
def commitUpdate (t : HostTree) (r : AnyRecorder) : Outcome HostTree :=
  match r with
  | .foreign => .thrown .invalidUpdateRecord
  | .base u =>
    match treeGet t u.path with
    | .thrown e => .thrown e
    | .ok none => .thrown (.contentHasMutated u.path)
    | .ok (some c) => treeOverwrite t u.path (applyPatch u.patches c)

/-- State of a parent tree and one branch forked from it.  HostTree.branch
(host-tree.ts lines 115-117) passes this._record, the parent's live
overlay, as the branch's backend: the branch's backend view at any moment
is the parent's resolved view at that same moment, not a fork-time
snapshot. -/
structure ForkState where
  backend : FsMap
  tRecords : List FsRecord
  bRecords : List FsRecord
  deriving DecidableEq, Repr

/-- The parent tree's resolved view. -/
def parentView (s : ForkState) : FsMap :=
  applyRecords s.backend s.tRecords

/-- The branch tree's resolved view: its own records over the parent's
current view (live backend delegation through SafeReadonlyHost). -/
def branchView (s : ForkState) : FsMap :=
  applyRecords (parentView s) s.bRecords

/-- Branch read: lookup in the branch's resolved view. -/
def branchRead (s : ForkState) (p : FsPath) : Option Content :=
  lookupFs (branchView s) p

/-- Parent tree overwrite performed after the fork, threaded through the
fork state. -/
def parentOverwriteF (s : ForkState) (p : FsPath) (c : Content) : Outcome ForkState :=
  match hostOverwrite ⟨s.backend, s.tRecords⟩ p c with
  | .ok h => .ok ⟨s.backend, h.records, s.bRecords⟩
  | .thrown e => .thrown e

/-- Branch overwrite performed after the fork, threaded through the fork
state. -/
def branchOverwriteF (s : ForkState) (p : FsPath) (c : Content) : Outcome ForkState :=
  match hostOverwrite ⟨parentView s, s.bRecords⟩ p c with
  | .ok h => .ok ⟨s.backend, s.tRecords, h.records⟩
  | .thrown e => .thrown e

/-- Fixture: merge destination with a pending overwrite of /a to "x". -/
def c3dest : HostTree := ⟨0, ⟨[(["a"], "1")], [.overwrite ["a"] "x"]⟩⟩

/-- Fixture: merge destination with a pending create of /x. -/
def c5dest : HostTree := ⟨0, ⟨[], [.create ["x"] "1"]⟩⟩

/-- Fixture: view with files /a and /dir/b, the traversal example of the
specification. -/
def exVisitMap : FsMap := [(["a"], "x"), (["dir", "b"], "y")]

/-- Fixture: visitor raising the cancel token at /a. -/
def exCancelVisitor : FsPath → VisitAct :=
  fun p => if p = ["a"] then .cancel else .next

/-- Fixture: visitor raising an ordinary exception at /a. -/
def exFailVisitor : FsPath → VisitAct :=
  fun p => if p = ["a"] then .fail 7 else .next

/-- Fixture: tree whose /a was a file in the backend but was deleted and
shadowed by a new file /a/x, so /a now resolves to a directory. -/
def c8tree : HostTree := ⟨0, ⟨[(["a"], "1")], [.delete ["a"], .create ["a", "x"] "z"]⟩⟩

/-- Fixture: tree whose only file /f was deleted after an update was begun. -/
def c8deleted : HostTree := ⟨0, ⟨[(["f"], "abc")], [.delete ["f"]]⟩⟩

/-- Fixture: tree with the live file /f. -/
def c8live : HostTree := ⟨0, ⟨[(["f"], "abc")], []⟩⟩

/-- Entries whose key differs from a path are invisible to a lookup of that
path. -/
theorem find?_filter_ne (m : FsMap) (p : FsPath) :
    (m.filter (fun e => decide (e.1 ≠ p))).find? (fun e => decide (e.1 = p)) = none := by
  rw [List.find?_eq_none]
  intro x hx
  have hne := (List.mem_filter.mp hx).2
  simp only [decide_eq_true_eq] at hne ⊢
  exact hne

/-- Looking up a freshly inserted file returns its content. -/
theorem lookupFs_insertFile (m : FsMap) (p : FsPath) (c : Content) :
    lookupFs (insertFile m p c) p = some c := by
  unfold lookupFs insertFile
  rw [List.find?_append, find?_filter_ne]
  simp [List.find?]

/-- Inserting a file at a path cannot turn that same path into a directory. -/
theorem isDirectory_insertFile (m : FsMap) (p : FsPath) (c : Content)
    (h : isDirectory m p = false) : isDirectory (insertFile m p c) p = false := by
  unfold isDirectory insertFile
  rw [List.any_append]
  rw [isDirectory, List.any_eq_false] at h
  have h1 : (m.filter (fun e => decide (e.1 ≠ p))).any
      (fun e => p.isPrefixOf e.1 && decide (p.length < e.1.length)) = false := by
    rw [List.any_eq_false]
    intro x hx
    exact h x (List.mem_filter.mp hx).1
  rw [h1]
  simp

/-- Appending one record to the log applies it on top of the previous view. -/
theorem applyRecords_snoc (b : FsMap) (rs : List FsRecord) (r : FsRecord) :
    applyRecords b (rs ++ [r]) = applyRecord (applyRecords b rs) r := by
  unfold applyRecords
  rw [List.foldl_append]
  rfl

/-- Running a visitor over a concatenation is running it over the first part
and, when no signal was raised, continuing with the second. -/
theorem linRun_append (v : FsPath → VisitAct) (xs ys : List FsPath) :
    linRun v (xs ++ ys) = seqComp (linRun v xs) (linRun v ys) := by
  induction xs with
  | nil => simp [linRun, seqComp]
  | cons p ps ih =>
    cases hv : v p with
    | next =>
      simp only [List.cons_append, linRun, hv, ih]
      cases h2 : (linRun v ps).2 with
      | some s => simp [seqComp, h2, ih]
      | none => simp [seqComp, h2, ih]
    | cancel => simp [linRun, hv, seqComp]
    | fail e => simp [linRun, hv, seqComp]

/-- Short-circuit sequencing over a name list agrees with one linear run of
the concatenated orders. -/
theorem seqAll_flat (v : FsPath → VisitAct) (g : String → List FsPath)
    (h : String → List FsPath × Option VisitSig) (hg : ∀ n, h n = linRun v (g n)) :
    ∀ ns, seqAll h ns = linRun v (catAll g ns) := by
  intro ns
  induction ns with
  | nil => simp [seqAll, catAll, linRun]
  | cons n ns ih => simp [seqAll, catAll, hg, ih, linRun_append]

/-- The recursive traversal with a visitor equals one linear run of the
visitor over the traversal order: the visitor sees the files in order and
the first signal aborts everything that follows. -/
theorem recVisit_flat (m : FsMap) (v : FsPath → VisitAct) :
    ∀ (fuel : Nat) (d : FsPath), recVisit m v fuel d = linRun v (visitFrom m fuel d) := by
  intro fuel
  induction fuel with
  | zero => intro d; simp [recVisit, visitFrom, linRun]
  | succ f ih =>
    intro d
    rw [recVisit, visitFrom, linRun_append,
      seqAll_flat v (fun n => visitFrom m f (d ++ [n]))
        (fun n => recVisit m v f (d ++ [n])) (fun n => ih (d ++ [n]))]

/-- The visited files of a linear run form a prefix of the submitted order:
nothing past the aborting file is ever visited. -/
theorem linRun_fst_prefix (v : FsPath → VisitAct) : ∀ l, (linRun v l).1 <+: l := by
  intro l
  induction l with
  | nil => simp [linRun]
  | cons p ps ih =>
    cases hv : v p with
    | next =>
      obtain ⟨t, ht⟩ := ih
      exact ⟨t, by simp [linRun, hv, ht]⟩
    | cancel => exact ⟨ps, by simp [linRun, hv]⟩
    | fail e => exact ⟨ps, by simp [linRun, hv]⟩

/-- Membership in a concatenation over names comes from one of the names. -/
theorem catAll_mem {g : String → List FsPath} :
    ∀ {ns : List String} {p : FsPath}, p ∈ catAll g ns → ∃ n ∈ ns, p ∈ g n := by
  intro ns
  induction ns with
  | nil => intro p h; simp [catAll] at h
  | cons n ns ih =>
    intro p h
    rcases List.mem_append.mp (by simpa [catAll] using h) with h1 | h2
    · exact ⟨n, List.mem_cons_self n ns, h1⟩
    · obtain ⟨n2, hn2, hp⟩ := ih h2
      exact ⟨n2, List.mem_cons_of_mem n hn2, hp⟩

/-- Every path produced by the traversal from a directory lies strictly
under that directory. -/
theorem visitFrom_mem (m : FsMap) :
    ∀ (fuel : Nat) (d p : FsPath), p ∈ visitFrom m fuel d → d <+: p ∧ d.length + 1 ≤ p.length := by
  intro fuel
  induction fuel with
  | zero => intro d p h; simp [visitFrom] at h
  | succ f ih =>
    intro d p h
    rcases List.mem_append.mp (by simpa [visitFrom] using h) with h1 | h2
    · obtain ⟨n, hn, rfl⟩ := List.mem_map.mp (by simpa [subfilePaths] using h1)
      exact ⟨⟨[n], rfl⟩, by simp⟩
    · obtain ⟨n, hn, hp⟩ := catAll_mem h2
      obtain ⟨hpre, hlen⟩ := ih (d ++ [n]) p hp
      refine ⟨List.IsPrefix.trans ⟨[n], rfl⟩ hpre, ?_⟩
      simp only [List.length_append, List.length_cons, List.length_nil] at hlen
      omega

/-- Creating a file through the overlay never reports a merge conflict. -/
theorem hostCreate_no_conflict (h : CordHost) (t : HostTree) (p q : FsPath) (c : Content) :
    liftHost t (hostCreate h p c) ≠ .thrown (.mergeConflict q) := by
  unfold hostCreate liftHost
  by_cases he : hostExists h p
  · simp [he]
  · simp [he]

/-- Overwriting a file through the overlay never reports a merge conflict. -/
theorem hostOverwrite_no_conflict (h : CordHost) (t : HostTree) (p q : FsPath) (c : Content) :
    liftHost t (hostOverwrite h p c) ≠ .thrown (.mergeConflict q) := by
  unfold hostOverwrite liftHost
  by_cases he : hostExists h p
  · simp [he]
  · simp [he]

/-- Round trip of the specification's recorder example: insertLeft at 0,
insertRight at the end and a removal of "cd" applied to "abcdef". -/
theorem applyPatch_example :
    applyPatch [.insertLeft 0 "X", .insertRight 6 "Y", .remove 2 2] "abcdef" = "XabefY" := by
  decide

/-- Claim C1: branching is claimed to be copy-on-write in both directions.
The code violates the parent-to-branch direction: HostTree.branch passes
the parent's live overlay as the branch's backend, so the branch's initial
state does equal the parent's state and branch mutations stay invisible to
the parent, but a parent mutation made after the fork changes what the
branch reads.  Concretely, with backend file /a = "1", after the parent
overwrites /a with "2" the branch reads "2". -/
theorem devkit_C1_branch_backend_is_live :
    (∀ (b : FsMap) (tr : List FsRecord), branchView ⟨b, tr, []⟩ = parentView ⟨b, tr, []⟩)
    ∧ (∀ (s : ForkState) (br : List FsRecord),
        parentView ⟨s.backend, s.tRecords, br⟩ = parentView s)
    ∧ branchRead ⟨[(["a"], "1")], [], []⟩ ["a"] = some "1"
    ∧ parentOverwriteF ⟨[(["a"], "1")], [], []⟩ ["a"] "2"
        = .ok ⟨[(["a"], "1")], [.overwrite ["a"] "2"], []⟩
    ∧ branchRead ⟨[(["a"], "1")], [.overwrite ["a"] "2"], []⟩ ["a"] = some "2" := by
  refine ⟨fun b tr => rfl, fun s br => rfl, by decide, by decide, by decide⟩

/-- Claim C2: a source Delete action on a path the destination also has a
pending delete on raises MergeConflictException unless the delete-conflict
allowance is set, and that allowance is the very same strategy bit as the
overwrite-conflict allowance: the merge behaviour of a Delete action is
exactly the one obtained by reading its allowance as
overwriteConflictAllowed. -/
theorem devkit_C2_delete_conflict_same_bit :
    (∀ strategy : Nat, deleteConflictAllowed strategy = overwriteConflictAllowed strategy)
    ∧ (∀ (dest : HostTree) (i : Nat) (p : FsPath) (strategy : Nat),
        mergeAction dest ⟨i, .delete p⟩ strategy
          = if i = dest.id then .ok dest
            else if willDelete dest.host p && !(overwriteConflictAllowed strategy) then
              .thrown (.mergeConflict p)
            else liftHost dest (hostDelete dest.host p)) := by
  exact ⟨fun s => rfl, fun dest i p s => rfl⟩

/-- Claim C3: the claim states that a pending overwrite with identical
content is considered the same change and does not conflict.  The code
raises MergeConflictException from a pending overwrite regardless of
content: with destination content "x" pending for /a and an incoming
Overwrite of /a with the identical "x" under the default strategy, the
merge still throws, contradicting the claim and the source's own comment. -/
theorem devkit_C3_identical_overwrite_conflicts :
    willOverwrite c3dest.host ["a"] = true
    ∧ lookupFs (viewOf c3dest.host) ["a"] = some "x"
    ∧ mergeAction c3dest ⟨1, .overwrite ["a"] "x"⟩ mergeDefault
        = .thrown (.mergeConflict ["a"]) := by
  refine ⟨by decide, by decide, by decide⟩

/-- Claim C4: merge skips every action whose originating id equals the
destination's id, so replaying any list of such actions leaves the
destination unchanged, and merging a tree into itself is a no-op. -/
theorem devkit_C4_skip_own_history :
    (∀ (dest : HostTree) (a : ActionM) (strategy : Nat), a.id = dest.id →
        mergeAction dest a strategy = .ok dest)
    ∧ (∀ (strategy : Nat) (dest : HostTree) (acts : List ActionM),
        (∀ a ∈ acts, a.id = dest.id) → mergeActions strategy dest acts = .ok dest)
    ∧ (∀ (dest : HostTree) (strategy : Nat), mergeTrees dest dest strategy = .ok dest) := by
  refine ⟨?_, ?_, ?_⟩
  · intro dest a s h
    simp [mergeAction, h]
  · intro s dest acts h
    induction acts with
    | nil => rfl
    | cons a rest ih =>
      have ha : mergeAction dest a s = .ok dest := by
        simp [mergeAction, h a (List.mem_cons_self a rest)]
      rw [mergeActions, ha]
      exact ih (fun b hb => h b (List.mem_cons_of_mem a hb))
  · intro dest s
    simp [mergeTrees]

/-- Witness for C4 at concrete inputs: a destination with id 0 skips a
delete and a create action carrying id 0 and self-merge is a no-op. -/
theorem devkit_C4_witness :
    mergeAction ⟨0, ⟨[], []⟩⟩ ⟨0, .delete ["a"]⟩ 0 = .ok ⟨0, ⟨[], []⟩⟩
    ∧ mergeActions 0 ⟨0, ⟨[], []⟩⟩ [⟨0, .create ["a"] "c"⟩] = .ok ⟨0, ⟨[], []⟩⟩
    ∧ mergeTrees ⟨0, ⟨[], []⟩⟩ ⟨0, ⟨[], []⟩⟩ 0 = .ok ⟨0, ⟨[], []⟩⟩ :=
  ⟨devkit_C4_skip_own_history.1 ⟨0, ⟨[], []⟩⟩ ⟨0, .delete ["a"]⟩ 0 rfl,
   devkit_C4_skip_own_history.2.1 0 ⟨0, ⟨[], []⟩⟩ [⟨0, .create ["a"] "c"⟩] (by decide),
   devkit_C4_skip_own_history.2.2 ⟨0, ⟨[], []⟩⟩ 0⟩

/-- Claim C5: a foreign Create action conflicts exactly when the
destination has a pending create or overwrite of the path and the creation
allowance is unset; with the allowance set it is applied as an Overwrite
with the source's content, and with no pending record it is applied as a
create. -/
theorem devkit_C5_merge_create (dest : HostTree) (i : Nat) (p : FsPath) (c : Content)
    (strategy : Nat) (h : i ≠ dest.id) :
    (mergeAction dest ⟨i, .create p c⟩ strategy = .thrown (.mergeConflict p)
      ↔ (willCreate dest.host p || willOverwrite dest.host p) = true
        ∧ creationConflictAllowed strategy = false)
    ∧ ((willCreate dest.host p || willOverwrite dest.host p) = true →
        creationConflictAllowed strategy = true →
        mergeAction dest ⟨i, .create p c⟩ strategy = liftHost dest (hostOverwrite dest.host p c))
    ∧ ((willCreate dest.host p || willOverwrite dest.host p) = false →
        mergeAction dest ⟨i, .create p c⟩ strategy = liftHost dest (hostCreate dest.host p c)) := by
  by_cases hw : (willCreate dest.host p || willOverwrite dest.host p) = true
  · by_cases hc : creationConflictAllowed strategy = true
    · have hm : mergeAction dest ⟨i, .create p c⟩ strategy
          = liftHost dest (hostOverwrite dest.host p c) := by
        simp [mergeAction, h, hw, hc]
      refine ⟨?_, fun _ _ => hm, fun hcontra => by simp [hw] at hcontra⟩
      rw [hm]
      constructor
      · intro habs
        exact absurd habs (hostOverwrite_no_conflict dest.host dest p p c)
      · rintro ⟨-, hfalse⟩
        rw [hc] at hfalse
        cases hfalse
    · have hm : mergeAction dest ⟨i, .create p c⟩ strategy = .thrown (.mergeConflict p) := by
        simp [mergeAction, h, hw, Bool.eq_false_iff.mpr hc]
      refine ⟨?_, fun _ hc2 => absurd hc2 hc, fun hcontra => by simp [hw] at hcontra⟩
      simp [hm, hw, Bool.eq_false_iff.mpr hc]
  · have hm : mergeAction dest ⟨i, .create p c⟩ strategy
        = liftHost dest (hostCreate dest.host p c) := by
      simp [mergeAction, h, Bool.eq_false_iff.mpr hw]
    refine ⟨?_, fun hw2 _ => absurd hw2 hw, fun _ => hm⟩
    rw [hm]
    constructor
    · intro habs
      exact absurd habs (hostCreate_no_conflict dest.host dest p p c)
    · rintro ⟨hw2, -⟩
      exact absurd hw2 hw

/-- Witness for C5 at a concrete input: destination with a pending create of
/x, incoming Create of /x under the strict strategy. -/
theorem devkit_C5_witness :
    (mergeAction c5dest ⟨1, .create ["x"] "2"⟩ 0 = .thrown (.mergeConflict ["x"])
      ↔ (willCreate c5dest.host ["x"] || willOverwrite c5dest.host ["x"]) = true
        ∧ creationConflictAllowed 0 = false)
    ∧ ((willCreate c5dest.host ["x"] || willOverwrite c5dest.host ["x"]) = true →
        creationConflictAllowed 0 = true →
        mergeAction c5dest ⟨1, .create ["x"] "2"⟩ 0
          = liftHost c5dest (hostOverwrite c5dest.host ["x"] "2"))
    ∧ ((willCreate c5dest.host ["x"] || willOverwrite c5dest.host ["x"]) = false →
        mergeAction c5dest ⟨1, .create ["x"] "2"⟩ 0
          = liftHost c5dest (hostCreate c5dest.host ["x"] "2")) :=
  devkit_C5_merge_create c5dest 1 ["x"] "2" 0 (by decide)

/-- Claim C6: the traversal invokes the visitor over the visitation order
and the first raised signal aborts it, so no file past the aborting one is
visited; the cancel token is caught at the root call site (the propagated
exception is none), while an ordinary exception propagates to the caller of
visit.  Concretely, a visitor cancelling at /a of the /a, /dir/b view
leaves /dir/b unvisited with nothing propagated, and one failing at /a
propagates its exception. -/
theorem devkit_C6_cancellation :
    (∀ (m : FsMap) (v : FsPath → VisitAct) (fuel : Nat) (d : FsPath),
        recVisit m v fuel d = linRun v (visitFrom m fuel d))
    ∧ (∀ (v : FsPath → VisitAct) (l : List FsPath), (linRun v l).1 <+: l)
    ∧ hostVisit exVisitMap exCancelVisitor = ([["a"]], none)
    ∧ hostVisit exVisitMap exFailVisitor = ([["a"]], some 7) := by
  exact ⟨recVisit_flat, linRun_fst_prefix, by decide, by decide⟩

/-- Claim C7: the traversal order from a directory is all of its direct
files first, then the recursive orders of its subdirectories; direct files
sit exactly one level below the directory while everything contributed by a
subdirectory lies strictly below that subdirectory, at least two levels
down.  On the view with /a and /dir/b the order is /a then /dir/b. -/
theorem devkit_C7_files_before_subdirs :
    (∀ (m : FsMap) (fuel : Nat) (d : FsPath),
        visitFrom m (fuel + 1) d
          = subfilePaths m d ++ catAll (fun n => visitFrom m fuel (d ++ [n])) (subdirs m d))
    ∧ (∀ (m : FsMap) (d q : FsPath), q ∈ subfilePaths m d → q.length = d.length + 1)
    ∧ (∀ (m : FsMap) (fuel : Nat) (d p : FsPath),
        p ∈ catAll (fun n => visitFrom m fuel (d ++ [n])) (subdirs m d) →
        ∃ n ∈ subdirs m d, (d ++ [n]) <+: p ∧ d.length + 2 ≤ p.length)
    ∧ visitOrderOf exVisitMap = [["a"], ["dir", "b"]] := by
  refine ⟨fun m fuel d => rfl, ?_, ?_, by decide⟩
  · intro m d q hq
    obtain ⟨n, hn, rfl⟩ := List.mem_map.mp (by simpa [subfilePaths] using hq)
    simp
  · intro m fuel d p hp
    obtain ⟨n, hn, hmem⟩ := catAll_mem hp
    obtain ⟨hpre, hlen⟩ := visitFrom_mem m fuel (d ++ [n]) p hmem
    refine ⟨n, hn, hpre, ?_⟩
    simp only [List.length_append, List.length_cons, List.length_nil] at hlen
    omega

/-- Witness for C7's membership hypotheses at the /a, /dir/b view: /a is a
direct file of the root, and /dir/b is contributed by the subdirectory
part. -/
theorem devkit_C7_witness :
    (["a"] : FsPath).length = ([] : FsPath).length + 1
    ∧ ∃ n ∈ subdirs exVisitMap [],
        (([] : FsPath) ++ [n]) <+: ["dir", "b"] ∧ ([] : FsPath).length + 2 ≤ (["dir", "b"] : FsPath).length :=
  ⟨devkit_C7_files_before_subdirs.2.1 exVisitMap [] ["a"] (by decide),
   devkit_C7_files_before_subdirs.2.2.1 exVisitMap 2 [] ["dir", "b"] (by decide)⟩

/-- Claim C8 counterexample: the claim says commitUpdate raises
ContentHasMutatedException whenever the recorder's path no longer resolves
to a file, but when the path has become a directory (here /a was deleted
and /a/x created) the re-read throws PathIsDirectoryException instead. -/
theorem devkit_C8_counterexample :
    treeExists c8tree ["a"] = false
    ∧ isDirectory (viewOf c8tree.host) ["a"] = true
    ∧ commitUpdate c8tree (.base ⟨["a"], []⟩) = .thrown (.pathIsDirectory ["a"])
    ∧ (Outcome.thrown (Exc.pathIsDirectory ["a"]) : Outcome HostTree)
        ≠ Outcome.thrown (Exc.contentHasMutated ["a"]) := by
  refine ⟨by decide, by decide, by decide, by decide⟩

/-- Claim C8 as amended: a recorder that is not an UpdateRecorderBase raises
InvalidUpdateRecordException; when the recorder's path no longer resolves
at all commitUpdate raises ContentHasMutatedException; when it resolves to
a directory the re-read's PathIsDirectoryException propagates instead; and
when it resolves to a file the patch log is applied to the current content
and the result written back through overwrite. -/
theorem devkit_C8_commitUpdate :
    (∀ t : HostTree, commitUpdate t .foreign = .thrown .invalidUpdateRecord)
    ∧ (∀ (t : HostTree) (u : UpdateRecorderBase),
        isDirectory (viewOf t.host) u.path = false → hostExists t.host u.path = false →
        commitUpdate t (.base u) = .thrown (.contentHasMutated u.path))
    ∧ (∀ (t : HostTree) (u : UpdateRecorderBase) (c : Content),
        treeGet t u.path = .ok (some c) →
        commitUpdate t (.base u) = treeOverwrite t u.path (applyPatch u.patches c))
    ∧ (∀ (t : HostTree) (u : UpdateRecorderBase),
        isDirectory (viewOf t.host) u.path = true →
        commitUpdate t (.base u) = .thrown (.pathIsDirectory u.path)) := by
  refine ⟨fun t => rfl, ?_, ?_, ?_⟩
  · intro t u h1 h2
    simp [commitUpdate, treeGet, h1, h2]
  · intro t u c h
    simp [commitUpdate, h]
  · intro t u h1
    simp [commitUpdate, treeGet, h1]

/-- Witness for C8's hypotheses at concrete inputs: committing against the
deleted /f raises ContentHasMutated, and committing against the live /f
overwrites it with the patched content. -/
theorem devkit_C8_witness :
    commitUpdate c8deleted (.base ⟨["f"], []⟩) = .thrown (.contentHasMutated ["f"])
    ∧ commitUpdate c8live (.base ⟨["f"], [.insertRight 3 "Z"]⟩)
        = treeOverwrite c8live ["f"] (applyPatch [.insertRight 3 "Z"] "abc")
    ∧ commitUpdate c8tree (.base ⟨["a"], []⟩) = .thrown (.pathIsDirectory ["a"]) :=
  ⟨devkit_C8_commitUpdate.2.1 c8deleted ⟨["f"], []⟩ (by decide) (by decide),
   devkit_C8_commitUpdate.2.2.1 c8live ⟨["f"], [.insertRight 3 "Z"]⟩ "abc" (by decide),
   devkit_C8_commitUpdate.2.2.2 c8tree ⟨["a"], []⟩ (by decide)⟩

/-- Claim C9: create raises FileAlreadyExist exactly when the path already
exists in the overlay view (via the backend or a prior record), and
otherwise appends a Create record after which the path exists as a file
and reads back the given content. -/
theorem devkit_C9_create (t : HostTree) (p : FsPath) (c : Content) :
    (treeCreate t p c = .thrown (.fileAlreadyExist p) ↔ hostExists t.host p = true)
    ∧ (hostExists t.host p = false →
        treeCreate t p c = .ok ⟨t.id, ⟨t.host.backend, t.host.records ++ [.create p c]⟩⟩
        ∧ treeExists ⟨t.id, ⟨t.host.backend, t.host.records ++ [.create p c]⟩⟩ p = true
        ∧ treeRead ⟨t.id, ⟨t.host.backend, t.host.records ++ [.create p c]⟩⟩ p = .ok (some c)) := by
  have hview : viewOf (⟨t.host.backend, t.host.records ++ [.create p c]⟩ : CordHost)
      = insertFile (viewOf t.host) p c := by
    simp [viewOf, applyRecords_snoc, applyRecord]
  by_cases h : hostExists t.host p
  · refine ⟨?_, fun hfalse => by rw [h] at hfalse; cases hfalse⟩
    have hm : treeCreate t p c = .thrown (.fileAlreadyExist p) := by
      simp [treeCreate, h]
    simp [hm, h]
  · have hfalse : hostExists t.host p = false := Bool.eq_false_iff.mpr h
    have hm : treeCreate t p c
        = .ok ⟨t.id, ⟨t.host.backend, t.host.records ++ [.create p c]⟩⟩ := by
      simp [treeCreate, hostCreate, liftHost, hfalse]
    have hnofile : isFile (viewOf t.host) p = false := by
      have := hfalse
      rw [hostExists, Bool.or_eq_false_iff] at this
      exact this.1
    have hnodir : isDirectory (viewOf t.host) p = false := by
      have := hfalse
      rw [hostExists, Bool.or_eq_false_iff] at this
      exact this.2
    have hfile : isFile (viewOf (⟨t.host.backend, t.host.records ++ [.create p c]⟩ : CordHost)) p
        = true := by
      rw [hview, isFile, lookupFs_insertFile]
      rfl
    have hdir : isDirectory (viewOf (⟨t.host.backend, t.host.records ++ [.create p c]⟩ : CordHost)) p
        = false := by
      rw [hview]
      exact isDirectory_insertFile (viewOf t.host) p c hnodir
    refine ⟨?_, fun _ => ⟨hm, hfile, ?_⟩⟩
    · rw [hm]
      constructor
      · intro habs
        cases habs
      · intro habs
        rw [hfalse] at habs
        cases habs
    · rw [treeRead, treeGet, hdir, hview]
      simp only [Bool.false_eq_true, if_false]
      rw [hostExists, hview, isFile, lookupFs_insertFile]
      simp [lookupFs_insertFile, hview]

/-- Witness for C9 at a concrete input: creating /n with content "v" on the
empty tree. -/
theorem devkit_C9_witness :
    treeCreate ⟨0, ⟨[], []⟩⟩ ["n"] "v" = .ok ⟨0, ⟨[], [.create ["n"] "v"]⟩⟩
    ∧ treeExists ⟨0, ⟨[], [.create ["n"] "v"]⟩⟩ ["n"] = true
    ∧ treeRead ⟨0, ⟨[], [.create ["n"] "v"]⟩⟩ ["n"] = .ok (some "v") :=
  (devkit_C9_create ⟨0, ⟨[], []⟩⟩ ["n"] "v").2 (by decide)

/-- Claim C10: a path resolving to a directory (a file strictly under it,
none at it) is reported as non existent by Tree.exists, while Tree.get on
it raises PathIsDirectoryException instead of returning null. -/
theorem devkit_C10_dirs_not_files (t : HostTree) (p : FsPath)
    (h1 : isDirectory (viewOf t.host) p = true) (h2 : isFile (viewOf t.host) p = false) :
    treeExists t p = false ∧ treeGet t p = .thrown (.pathIsDirectory p) := by
  exact ⟨h2, by simp [treeGet, h1]⟩

/-- Witness for C10 at a concrete input: /dir of the view containing only
/dir/b. -/
theorem devkit_C10_witness :
    treeExists ⟨0, ⟨[(["dir", "b"], "y")], []⟩⟩ ["dir"] = false
    ∧ treeGet ⟨0, ⟨[(["dir", "b"], "y")], []⟩⟩ ["dir"] = .thrown (.pathIsDirectory ["dir"]) :=
  devkit_C10_dirs_not_files ⟨0, ⟨[(["dir", "b"], "y")], []⟩⟩ ["dir"] (by decide) (by decide)
